import Mathlib

/-!
Verification of the context-preserving error converter
(`impl_from_carry_context` in `src/composition.rs`).

The repository provides a macro generating `impl From<Source> for Target`
for two context-enriched error enums.  The generated function unwinds the
input chain into a vector of context values, re-wraps the retained base
value in `Source::Base`, applies the caller-supplied variant constructor,
wraps the result as `Target::Base`, and then rewinds the recorded contexts
in reverse order.
-/

/-- Modelled from the spec: a `Context-Enriched Error<E>` with context values
of type `C`.  The concrete enums are produced by the `impl_context` macro,
which is not part of this repository's sources; the shape is fixed by §3 of
the spec and by the patterns `$source::Base(x)` /
`$source::Context { context, error }` matched in `composition.rs`. -/
inductive ContextEnriched (C E : Type) : Type where
  | Base (x : E) : ContextEnriched C E
  | Context (context : C) (error : ContextEnriched C E) : ContextEnriched C E
deriving DecidableEq, Repr

/-- Modelled from the spec: the raw inner failure type of the concrete
scenario in §8 (`RawFailure::X`, and `RawFailure::Y` for the empty
scenario).  Its declaration is external to this repository's sources. -/
inductive RawFailure : Type where
  | X : RawFailure
  | Y : RawFailure
deriving DecidableEq, Repr

/-- Modelled from the spec: the outer failure type of the concrete scenario
in §8, with one variant `Wrapped` embedding the inner failure.  The
generated code applies the variant path to `$source::Base(inner)`, a value
of the enriched source type, so the variant's payload is the enriched
inner type (see the macro's usage condition 2: "Source is a variant of
Target's inner error"). -/
inductive OuterFailure : Type where
  | Wrapped (inner : ContextEnriched String RawFailure) : OuterFailure
deriving DecidableEq, Repr

namespace ContextEnriched

variable {C E SE TE TM : Type}

/-- The unwind loop of the generated `from` (lines 41–49 of
`composition.rs`): walk the chain from the root, pushing each `context`
onto the accumulator (`contexts.push(context)`), and stop at `Base`,
returning the recorded contexts together with the retained base value. -/
def unwindGo (acc : List C) : ContextEnriched C E → List C × E
  | .Base x => (acc, x)
  | .Context context error => unwindGo (acc ++ [context]) error

/-- The rewind loop of the generated `from` (lines 54–59 of
`composition.rs`): `for ctx in contexts.into_iter().rev()` wraps the
current result in `Context { context: ctx, error: Box::new(x) }`. -/
def rewind (contexts : List C) (x : ContextEnriched C TE) :
    ContextEnriched C TE :=
  contexts.reverse.foldl (fun x ctx => ContextEnriched.Context ctx x) x

/-- The function generated by `impl_from_carry_context!(Source, Target,
variant)` (lines 38–62 of `composition.rs`).  `variant` is the
caller-supplied variant constructor; the generated code applies it to
`$source::Base(inner)`, so its domain is the enriched source type. -/
def fromCarryContext (variant : ContextEnriched C SE → TE)
    (value : ContextEnriched C SE) : ContextEnriched C TE :=
  let p := unwindGo [] value
  let inner := p.2
  let inner := ContextEnriched.Base (E := SE) inner
  let x := ContextEnriched.Base (variant inner)
  rewind p.1 x

/-- The terminal base value of a chain: follow `error` to the `Base` node. -/
def baseValue : ContextEnriched C E → E
  | .Base x => x
  | .Context _ error => baseValue error

/-- The context values of a chain, listed from the root toward the base. -/
def contextList : ContextEnriched C E → List C
  | .Base _ => []
  | .Context context error => context :: contextList error

/-- The number of `Context` nodes of a chain. -/
def numContexts (x : ContextEnriched C E) : Nat :=
  (contextList x).length

/-- The embedding from the inner base-failure type into the outer
base-failure type realised at a macro call site: the caller-supplied
variant constructor applied to the zero-context `Source::Base` wrapping. -/
def embedOf (variant : ContextEnriched C SE → TE) : SE → TE :=
  fun v => variant (ContextEnriched.Base v)

/-- The unwind loop with an explicit iteration budget: each `loop`
iteration of the generated code consumes one unit of fuel, so a `some`
result at finite fuel witnesses termination of the loop. -/
def unwindLoopFuel : Nat → List C → ContextEnriched C E →
    Option (List C × E)
  | 0, _, _ => none
  | _ + 1, acc, .Base x => some (acc, x)
  | fuel + 1, acc, .Context context error =>
      unwindLoopFuel fuel (acc ++ [context]) error

/-- The generated `from` with the unwind loop run under an iteration
budget; `none` would mean the loop failed to reach `Base` within the
budget. -/
def fromCarryContextFuel (fuel : Nat)
    (variant : ContextEnriched C SE → TE) (value : ContextEnriched C SE) :
    Option (ContextEnriched C TE) :=
  (unwindLoopFuel fuel [] value).map fun p =>
    rewind p.1 (ContextEnriched.Base (variant (ContextEnriched.Base p.2)))

/-- Follow the `error` field `n` times from a node; `none` when a `Base`
node (which has no `error` field) is reached too early. -/
def follow : ContextEnriched C E → Nat → Option (ContextEnriched C E)
  | x, 0 => some x
  | .Base _, _ + 1 => none
  | .Context _ error, n + 1 => follow error n

/-- Whether a node is a terminal `Base` node. -/
def isBase : ContextEnriched C E → Bool
  | .Base _ => true
  | .Context _ _ => false

theorem unwindGo_eq (acc : List C) (x : ContextEnriched C E) :
    unwindGo acc x = (acc ++ contextList x, baseValue x) := by
  induction x generalizing acc with
  | Base v => simp [unwindGo, contextList, baseValue]
  | Context c e ih => simp [unwindGo, contextList, baseValue, ih]

theorem rewind_nil (x : ContextEnriched C TE) : rewind [] x = x := rfl

theorem rewind_cons (c : C) (l : List C) (x : ContextEnriched C TE) :
    rewind (c :: l) x = ContextEnriched.Context c (rewind l x) := by
  simp [rewind, List.foldl_append]

theorem fromCarryContext_Base (variant : ContextEnriched C SE → TE)
    (v : SE) :
    fromCarryContext variant (.Base v) =
      ContextEnriched.Base (variant (ContextEnriched.Base v)) := rfl

theorem fromCarryContext_Context (variant : ContextEnriched C SE → TE)
    (c : C) (e : ContextEnriched C SE) :
    fromCarryContext variant (.Context c e) =
      ContextEnriched.Context c (fromCarryContext variant e) := by
  simp [fromCarryContext, unwindGo_eq, rewind_cons, contextList, baseValue]

theorem baseValue_fromCarryContext (variant : ContextEnriched C SE → TE)
    (x : ContextEnriched C SE) :
    baseValue (fromCarryContext variant x) =
      variant (ContextEnriched.Base (baseValue x)) := by
  induction x with
  | Base v => rfl
  | Context c e ih =>
      rw [fromCarryContext_Context]
      simpa [baseValue] using ih

theorem contextList_fromCarryContext (variant : ContextEnriched C SE → TE)
    (x : ContextEnriched C SE) :
    contextList (fromCarryContext variant x) = contextList x := by
  induction x with
  | Base v => rfl
  | Context c e ih =>
      rw [fromCarryContext_Context]
      simp [contextList, ih]

theorem unwindLoopFuel_eq (x : ContextEnriched C E) :
    ∀ (fuel : Nat) (acc : List C), numContexts x < fuel →
      unwindLoopFuel fuel acc x = some (unwindGo acc x) := by
  induction x with
  | Base v =>
      intro fuel acc h
      match fuel with
      | f + 1 => rfl
  | Context c e ih =>
      intro fuel acc h
      match fuel with
      | f + 1 =>
          have he : numContexts e < f := by
            simpa [numContexts, contextList] using h
          simpa [unwindLoopFuel, unwindGo] using ih f (acc ++ [c]) he

theorem follow_isBase_iff (x : ContextEnriched C E) (n : Nat) :
    (∃ y, follow x n = some y ∧ isBase y = true) ↔ n = numContexts x := by
  induction x generalizing n with
  | Base v =>
      match n with
      | 0 => simp [follow, isBase, numContexts, contextList]
      | m + 1 => simp [follow, numContexts, contextList]
  | Context c e ih =>
      match n with
      | 0 => simp [follow, isBase, numContexts, contextList]
      | m + 1 => simpa [follow, numContexts, contextList] using ih m

/-- C1: base transform correctness — for every input chain, the terminal
base value of the output of the generated conversion equals the embedding
realised at the call site (`embedOf variant`, the inner-to-outer
base-failure map induced by the caller-supplied variant constructor)
applied directly to the input's raw terminal base value. -/
theorem base_transform_correctness (variant : ContextEnriched C SE → TE)
    (x : ContextEnriched C SE) :
    baseValue (fromCarryContext variant x) =
      embedOf variant (baseValue x) :=
  baseValue_fromCarryContext variant x

/-- C2: order preservation — walking the output from root to base yields
exactly the same sequence of context values, pairwise positionally equal,
as walking the input from root to base. -/
theorem order_preservation (variant : ContextEnriched C SE → TE)
    (x : ContextEnriched C SE) :
    contextList (fromCarryContext variant x) = contextList x :=
  contextList_fromCarryContext variant x

/-- C3: annotation-count preservation — the output of the conversion has
exactly as many `Context` nodes as the input. -/
theorem context_count_preservation (variant : ContextEnriched C SE → TE)
    (x : ContextEnriched C SE) :
    numContexts (fromCarryContext variant x) = numContexts x := by
  simp [numContexts, contextList_fromCarryContext]

/-- C4: composition law — converting twice through `f` and then `g` equals
converting once through the composite variant, and the embedding realised
by the composite is exactly the composition of the two realised
embeddings (the `Base` re-wrap between the two conversions is the
representation change between the middle and outer error types). -/
theorem conversion_composition (f : ContextEnriched C SE → TM)
    (g : ContextEnriched C TM → TE) (x : ContextEnriched C SE) :
    fromCarryContext g (fromCarryContext f x) =
        fromCarryContext (fun s => g (ContextEnriched.Base (f s))) x ∧
      embedOf (fun s => g (ContextEnriched.Base (f s))) =
        embedOf g ∘ embedOf f := by
  constructor
  · induction x with
    | Base v => rfl
    | Context c e ih =>
        rw [fromCarryContext_Context, fromCarryContext_Context,
          fromCarryContext_Context, ih]
  · rfl

/-- C5: zero-context identity — converting a bare `Base v` yields exactly
`Base` of the realised embedding of `v`, with zero context nodes. -/
theorem zero_context_identity (variant : ContextEnriched C SE → TE)
    (v : SE) :
    fromCarryContext variant (.Base v) =
        ContextEnriched.Base (embedOf variant v) ∧
      numContexts (fromCarryContext variant (.Base v)) = 0 :=
  ⟨rfl, rfl⟩

/-- C6: concrete two-annotation scenario — for the input
`Context "at step A" (Context "at step B" (Base RawFailure.X))` and the
`OuterFailure.Wrapped` embedding, the output keeps both context values in
order and re-wraps the base through `Wrapped` (whose payload, per the
macro, is the zero-context enriched value `Base RawFailure.X`). -/
theorem concrete_two_step_scenario :
    fromCarryContext OuterFailure.Wrapped
        (.Context "at step A" (.Context "at step B" (.Base RawFailure.X))) =
      .Context "at step A" (.Context "at step B"
        (.Base (OuterFailure.Wrapped (.Base RawFailure.X)))) := rfl

/-- C7: totality and termination — the unwind loop reaches `Base` within
`numContexts x + 1` iterations, so the conversion run under that finite
iteration budget returns `some` result, equal to the total conversion;
the converter has no failure case of its own. -/
theorem conversion_total (variant : ContextEnriched C SE → TE)
    (x : ContextEnriched C SE) :
    fromCarryContextFuel (numContexts x + 1) variant x =
      some (fromCarryContext variant x) := by
  have h := unwindLoopFuel_eq x (numContexts x + 1) [] (Nat.lt_succ_self _)
  simp [fromCarryContextFuel, fromCarryContext, h]

/-- C8: invariant preservation — the output of the conversion is a strictly
linear finite chain: following the `error` field repeatedly from its root
reaches a `Base` node after exactly one number of steps. -/
theorem output_linear_chain (variant : ContextEnriched C SE → TE)
    (x : ContextEnriched C SE) :
    ∃! n : Nat, ∃ y, follow (fromCarryContext variant x) n = some y ∧
      isBase y = true := by
  refine ⟨numContexts (fromCarryContext variant x), ?_, ?_⟩
  · exact (follow_isBase_iff _ _).mpr rfl
  · intro m hm
    exact (follow_isBase_iff _ _).mp hm

/-- C9: purity and determinism — the conversion is a pure function of its
input: any two invocations on equal input values with the same variant
constructor produce equal output values. -/
theorem conversion_deterministic (variant : ContextEnriched C SE → TE)
    (x1 x2 : ContextEnriched C SE) (h : x1 = x2) :
    fromCarryContext variant x1 = fromCarryContext variant x2 := by
  rw [h]

theorem conversion_deterministic_witness :
    fromCarryContext OuterFailure.Wrapped
        (.Context "at step A" (.Base RawFailure.Y)) =
      fromCarryContext OuterFailure.Wrapped
        (.Context "at step A" (.Base RawFailure.Y)) :=
  conversion_deterministic OuterFailure.Wrapped
    (.Context "at step A" (.Base RawFailure.Y))
    (.Context "at step A" (.Base RawFailure.Y)) rfl

/-- C10: the generated code re-wraps the extracted raw base value in the
source type's own `Base` constructor before applying the caller-supplied
variant constructor: the output's terminal base value is
`variant (Base v)`, so the variant receives a zero-context value of the
enriched inner type (its parameter type), not the raw value `v` itself. -/
theorem variant_receives_enriched_base (variant : ContextEnriched C SE → TE)
    (x : ContextEnriched C SE) :
    baseValue (fromCarryContext variant x) =
        variant (ContextEnriched.Base (baseValue x)) ∧
      numContexts (ContextEnriched.Base (baseValue x) :
        ContextEnriched C SE) = 0 :=
  ⟨baseValue_fromCarryContext variant x, rfl⟩

end ContextEnriched
